import Mathlib

/-
Verification of the particle-bank module (src/bank.cpp) of a Monte Carlo
transport code: the shared fission bank, the source bank, the per-parent
progeny counters, and the O(n) reproducibility sort that reorders the
fission bank by (parent_id, progeny_id) lineage.

The C++ globals of `namespace openmc::simulation` are embedded as one
explicit state record; each C++ function becomes a pure state transformer.
Machine integers (int64_t indices and counts) are embedded as Nat: all the
quantities involved are non-negative, and no operation here can overflow
int64_t when the bank fits in memory.  Out-of-range raw-array accesses are
undefined behaviour in the C++ source; the embedding totalizes them with
the usual `getD` / no-op `List.set` conventions, and every theorem that
relies on an access being in range carries the corresponding
well-formedness hypothesis.
-/

namespace OpenMC

/-- One banked fission site (C++ `Particle::Bank`).  The physics payload
(position, direction, energy, weight, delayed group, ...) is opaque to
bank.cpp and is collapsed into a single `payload` field; `parent_id` is
the 1-based index of the source particle that produced the site and
`progeny_id` the 0-based ordinal of the site among that parent's progeny. -/
structure Bank where
  parent_id : Nat
  progeny_id : Nat
  payload : Nat
deriving DecidableEq

/-- A default-constructed `Particle::Bank` (what `std::vector<Bank>(n)`
value-initializes its slots with). -/
def defaultBank : Bank := ⟨0, 0, 0⟩

/-- The global state of bank.cpp (`namespace openmc::simulation`), plus the
error-message channel of `set_errmsg`:
`source_bank` (a `std::vector`), the fission bank held as a possibly-null
owning pointer to a fixed-capacity array (`none` models a null
`std::unique_ptr`), its shared length counter and declared capacity, and
`progeny_per_particle`. -/
structure BankState where
  source_bank : List Bank
  fission_bank : Option (List Bank)
  fission_bank_length : Nat
  fission_bank_max : Nat
  progeny_per_particle : List Nat
  errmsg : String
deriving DecidableEq

/-- C++ `free_memory_bank`: `source_bank.clear(); fission_bank.reset();
fission_bank_length = 0;`.  Nothing else is touched. -/
def free_memory_bank (s : BankState) : BankState :=
  { s with source_bank := [], fission_bank := none, fission_bank_length := 0 }

/-- C++ `std::vector<int64_t>::resize(n)`: entries below `min n l.length`
are kept, entries from `l.length` up to `n` are value-initialized to 0,
entries beyond `n` are dropped. -/
def vectorResize (l : List Nat) (n : Nat) : List Nat :=
  l.take n ++ List.replicate (n - l.length) 0

/-- C++ `init_fission_bank(max)`: stores the capacity, allocates a fresh
default-initialized array of that capacity, resets the length counter and
resizes `progeny_per_particle` to `work_per_rank` (the number of
locally-owned source particles, an external global passed here as an
argument). -/
def init_fission_bank (max work_per_rank : Nat) (s : BankState) : BankState :=
  { s with
    fission_bank_max := max,
    fission_bank := some (List.replicate max defaultBank),
    fission_bank_length := 0,
    progeny_per_particle := vectorResize s.progeny_per_particle work_per_rank }

/-- The in-place exclusive-scan loop of `sort_fission_bank` (lines 72-76),
from index 1 on: `prev` is the already-written value at `i-1`, `tmp` the
saved original value at `i-1`, and the argument list holds the original
values from index `i` on.  Each step writes `value = prev + tmp` and
carries the original entry forward. -/
def scanLoop : Nat → Nat → List Nat → List Nat
  | _, _, [] => []
  | prev, tmp, x :: xs => (prev + tmp) :: scanLoop (prev + tmp) x xs

/-- The whole in-place scan of `sort_fission_bank` (lines 70-76):
`tmp = p[0]; p[0] = 0;` then the carried loop over the remaining entries. -/
def scan_fission : List Nat → List Nat
  | [] => []
  | c :: cs => 0 :: scanLoop 0 c cs

/-- Destination index of a site in the scatter loop (line 87):
`progeny_per_particle[site.parent_id - 1] + site.progeny_id`, the counter
vector already holding the scanned offsets.  An out-of-range `parent_id`
reads garbage in C++ (UB); the embedding totalizes with `getD _ 0`. -/
def destIdx (offsets : List Nat) (site : Bank) : Nat :=
  offsets.getD (site.parent_id - 1) 0 + site.progeny_id

/-- The scatter loop of `sort_fission_bank` (lines 85-89): each live site
is written into the scratch buffer at its destination index.  An
out-of-range destination scribbles past the scratch buffer in C++ (UB);
the embedding's `List.set` is a no-op there. -/
def scatterLoop (offsets : List Nat) : List Bank → List Bank → List Bank
  | [], sorted => sorted
  | site :: rest, sorted =>
      scatterLoop offsets rest (sorted.set (destIdx offsets site) site)

/-- C++ `sort_fission_bank` (lines 61-95): return immediately when
`progeny_per_particle` is empty; otherwise scan the counters into offsets
in place, scatter the live region `[0, fission_bank_length)` into a
scratch vector of size `fission_bank_length`, and copy the scratch back
over the live region (slots at and beyond `fission_bank_length` are not
written). -/
def sort_fission_bank (s : BankState) : BankState :=
  if s.progeny_per_particle.length = 0 then s
  else
    { s with
      progeny_per_particle := scan_fission s.progeny_per_particle,
      fission_bank := some
        (scatterLoop (scan_fission s.progeny_per_particle)
            ((s.fission_bank.getD []).take s.fission_bank_length)
            (List.replicate s.fission_bank_length defaultBank)
          ++ (s.fission_bank.getD []).drop s.fission_bank_length) }

/-- Modelled from the spec: the distinguished numeric "not yet allocated"
error code (`OPENMC_E_ALLOCATE`, defined in the C API header, which is not
part of this excerpt).  Only its being distinct from the success code 0
matters here. -/
def OPENMC_E_ALLOCATE : Int := -2

/-- C++ `openmc_source_bank(void** ptr, int64_t* n)`.  The caller's output
variables are modelled as explicit inputs `ptr0`, `n0`, returned unchanged
on the failure path; a pointer is modelled by the data it refers to.  The
result quadruple is (return code, *ptr, *n, errmsg channel after the
call); `set_errmsg` (error.cpp, outside this excerpt) is modelled as
writing the message into that channel. -/
def openmc_source_bank (s : BankState) (ptr0 : Option (List Bank)) (n0 : Int) :
    Int × Option (List Bank) × Int × String :=
  if s.source_bank.length = 0 then
    (OPENMC_E_ALLOCATE, ptr0, n0, "Source bank has not been allocated.")
  else
    (0, some s.source_bank, (s.source_bank.length : Int), s.errmsg)

/-- C++ `openmc_fission_bank(void** ptr, int64_t* n)`, modelled like
`openmc_source_bank`; the success path hands out the fission-bank pointer
(`fission_bank.get()`) and the current length. -/
def openmc_fission_bank (s : BankState) (ptr0 : Option (List Bank)) (n0 : Int) :
    Int × Option (List Bank) × Int × String :=
  if s.fission_bank_length = 0 then
    (OPENMC_E_ALLOCATE, ptr0, n0, "Fission bank has not been allocated.")
  else
    (0, s.fission_bank, (s.fission_bank_length : Int), s.errmsg)

/-- Modelled from the spec: `FissionBank.append` (spec §4.1).  The
lock-free append primitive lives in the transport code, outside this
excerpt.  Per the spec it atomically reserves the next index (the current
length), writes the site there and returns the index; when the reserved
index would be at or past the capacity it must report a capacity error and
not write. -/
def fission_bank_append (s : BankState) (site : Bank) :
    Except String (BankState × Nat) :=
  if s.fission_bank_length < s.fission_bank_max then
    Except.ok
      ({ s with
          fission_bank := s.fission_bank.map
            (fun arr => arr.set s.fission_bank_length site),
          fission_bank_length := s.fission_bank_length + 1 },
        s.fission_bank_length)
  else Except.error "Maximum fission bank size exceeded."

/-- Modelled from the spec: the reference exclusive prefix sum (spec §4.3
step 2): entry `i` is the sum of all original counts at indices `< i`. -/
def exclusive_scan (l : List Nat) : List Nat :=
  (List.range l.length).map fun i => (l.take i).sum

/-- The live region `[0, fission_bank_length)` of the fission-bank array. -/
def liveRegion (s : BankState) : List Bank :=
  (s.fission_bank.getD []).take s.fission_bank_length

/-- Well-formed state: the fission bank is allocated, its array really has
the declared capacity, and the shared length counter is within capacity. -/
def WF (s : BankState) : Prop :=
  s.fission_bank ≠ none
  ∧ (s.fission_bank.getD []).length = s.fission_bank_max
  ∧ s.fission_bank_length ≤ s.fission_bank_max

instance (s : BankState) : Decidable (WF s) := by
  unfold WF; infer_instance

/-- A site is valid for a counter vector: 1-based `parent_id` within the
source population, `progeny_id` strictly below that parent's count. -/
def ValidSite (counts : List Nat) (site : Bank) : Prop :=
  1 ≤ site.parent_id ∧ site.parent_id ≤ counts.length
  ∧ site.progeny_id < counts.getD (site.parent_id - 1) 0

instance (counts : List Nat) (site : Bank) : Decidable (ValidSite counts site) := by
  unfold ValidSite; infer_instance

/-- The lineage invariant (spec §3) for a bank content `live` against the
per-parent progeny counts: every site is valid, no two sites carry the
same `(parent_id, progeny_id)` pair, every pair `(p+1, j)` with
`j < counts[p]` is realized by some site, and the bank holds exactly
`counts.sum` sites. -/
def LineageInv (counts : List Nat) (live : List Bank) : Prop :=
  (∀ site ∈ live, ValidSite counts site)
  ∧ live.Pairwise (fun a b => a.parent_id ≠ b.parent_id ∨ a.progeny_id ≠ b.progeny_id)
  ∧ (∀ p, p < counts.length → ∀ j, j < counts.getD p 0 →
      ∃ site ∈ live, site.parent_id = p + 1 ∧ site.progeny_id = j)
  ∧ live.length = counts.sum

instance (counts : List Nat) (live : List Bank) : Decidable (LineageInv counts live) := by
  unfold LineageInv; infer_instance

/-- Closed form of the carried scan loop: starting with written value
`prev` and carried original `tmp`, the loop emits
`prev + tmp + (partial sums of the remaining originals)`. -/
theorem scanLoop_eq (xs : List Nat) : ∀ prev tmp : Nat,
    scanLoop prev tmp xs
      = (List.range xs.length).map fun i => prev + tmp + (xs.take i).sum := by
  induction xs with
  | nil => intro prev tmp; rfl
  | cons x xs ih =>
    intro prev tmp
    rw [scanLoop, List.length_cons, List.range_succ_eq_map, List.map_cons,
      List.map_map, ih]
    refine congrArg₂ _ (by simp) (List.map_congr_left ?_)
    intro i _
    simp [Function.comp, List.take_succ_cons, List.sum_cons]
    omega

/-- The in-place scan of `sort_fission_bank` computes exactly the
reference exclusive prefix sum. -/
theorem scan_fission_eq (l : List Nat) : scan_fission l = exclusive_scan l := by
  cases l with
  | nil => rfl
  | cons c cs =>
    rw [scan_fission, scanLoop_eq, exclusive_scan, List.length_cons,
      List.range_succ_eq_map, List.map_cons, List.map_map]
    refine congrArg₂ _ (by simp) (List.map_congr_left ?_)
    intro i _
    simp [Function.comp, List.take_succ_cons, List.sum_cons]

/-- Entry `i` of the reference exclusive scan is the sum of the first `i`
counts. -/
theorem exclusive_scan_getD (l : List Nat) (i : Nat) (h : i < l.length) :
    (exclusive_scan l).getD i 0 = (l.take i).sum := by
  rw [exclusive_scan, List.getD_eq_getElem?_getD, List.getElem?_map,
    List.getElem?_range h]
  rfl

/-- Partial sums of a list are monotone in the cut point. -/
theorem sum_take_mono (l : List Nat) {i j : Nat} (h : i ≤ j) :
    (l.take i).sum ≤ (l.take j).sum := by
  have hj : j = i + (j - i) := by omega
  rw [hj, List.take_add, List.sum_append]
  omega

/-- `sum_take_succ` restated through `getD`. -/
theorem sum_take_succ_getD (l : List Nat) {p : Nat} (hp : p < l.length) :
    (l.take (p + 1)).sum = (l.take p).sum + l.getD p 0 := by
  rw [List.sum_take_succ l p hp, List.getD_eq_getElem?_getD,
    List.getElem?_eq_getElem hp]
  rfl

/-- A destination index built from a valid `(parent, progeny)` pair stays
below the total count. -/
theorem sum_take_add_lt (l : List Nat) {p j : Nat} (hp : p < l.length)
    (hj : j < l.getD p 0) : (l.take p).sum + j < l.sum := by
  have h1 := sum_take_succ_getD l hp
  have h2 : (l.take (p + 1)).sum ≤ l.sum := by
    have h3 := sum_take_mono l (Nat.succ_le_of_lt hp)
    rwa [List.take_length] at h3
  omega

/-- Destinations of pairs with strictly increasing parent index are
strictly increasing. -/
theorem dest_lt_of_pair_lt (l : List Nat) {p q j i : Nat} (hpq : p < q)
    (hq : q < l.length) (hj : j < l.getD p 0) :
    (l.take p).sum + j < (l.take q).sum + i := by
  have h1 := sum_take_succ_getD l (lt_trans hpq hq)
  have h2 : (l.take (p + 1)).sum ≤ (l.take q).sum := sum_take_mono l hpq
  omega

/-- Every index below the total count decomposes uniquely as
(offset of some parent) + (progeny ordinal below that parent's count);
here we only need existence. -/
theorem sum_decompose (l : List Nat) : ∀ m, m < l.sum →
    ∃ p j, p < l.length ∧ j < l.getD p 0 ∧ (l.take p).sum + j = m := by
  induction l with
  | nil => intro m hm; simp at hm
  | cons c cs ih =>
    intro m hm
    by_cases hc : m < c
    · exact ⟨0, m, by simp, by simpa using hc, by simp⟩
    · have hrest : m - c < cs.sum := by
        rw [List.sum_cons] at hm; omega
      obtain ⟨p, j, hp, hj, he⟩ := ih (m - c) hrest
      refine ⟨p + 1, j, by simpa using hp, by simpa using hj, ?_⟩
      rw [List.take_succ_cons, List.sum_cons]
      omega

/-- For a valid site, the scatter destination against the scanned offsets
is the spec's canonical position `Σ_{t < parent} c_t + progeny`. -/
theorem destIdx_exclusive_scan (counts : List Nat) (site : Bank)
    (h : ValidSite counts site) :
    destIdx (exclusive_scan counts) site
      = (counts.take (site.parent_id - 1)).sum + site.progeny_id := by
  obtain ⟨h1, h2, _⟩ := h
  rw [destIdx, exclusive_scan_getD counts _ (by omega)]

/-- A valid site's destination lies inside `[0, counts.sum)`. -/
theorem destIdx_lt_sum (counts : List Nat) (site : Bank)
    (h : ValidSite counts site) :
    destIdx (exclusive_scan counts) site < counts.sum := by
  obtain ⟨h1, h2, h3⟩ := h
  rw [destIdx_exclusive_scan counts site ⟨h1, h2, h3⟩]
  exact sum_take_add_lt counts (by omega) h3

/-- Valid sites with equal destinations carry the same lineage pair. -/
theorem destIdx_inj (counts : List Nat) {a b : Bank}
    (ha : ValidSite counts a) (hb : ValidSite counts b)
    (h : destIdx (exclusive_scan counts) a = destIdx (exclusive_scan counts) b) :
    a.parent_id = b.parent_id ∧ a.progeny_id = b.progeny_id := by
  obtain ⟨ha1, ha2, ha3⟩ := ha
  obtain ⟨hb1, hb2, hb3⟩ := hb
  rw [destIdx_exclusive_scan counts a ⟨ha1, ha2, ha3⟩,
    destIdx_exclusive_scan counts b ⟨hb1, hb2, hb3⟩] at h
  rcases Nat.lt_trichotomy a.parent_id b.parent_id with hlt | heq | hgt
  · exact absurd h
      (Nat.ne_of_lt (dest_lt_of_pair_lt counts (by omega) (by omega) ha3))
  · refine ⟨heq, ?_⟩
    rw [heq] at h
    omega
  · exact absurd h.symm
      (Nat.ne_of_lt (dest_lt_of_pair_lt counts (by omega) (by omega) hb3))

/-- Under the lineage invariant, the live sites have pairwise distinct
scatter destinations. -/
theorem lineage_pairwise_dest (counts : List Nat) (live : List Bank)
    (hinv : LineageInv counts live) :
    live.Pairwise (fun a b =>
      destIdx (exclusive_scan counts) a ≠ destIdx (exclusive_scan counts) b) := by
  refine hinv.2.1.imp_of_mem ?_
  intro a b ha hb hR heq
  rcases destIdx_inj counts (hinv.1 a ha) (hinv.1 b hb) heq with ⟨h1, h2⟩
  rcases hR with h | h
  · exact h h1
  · exact h h2

/-- The scatter loop never changes the scratch buffer's length. -/
theorem scatterLoop_length (offsets : List Nat) (live : List Bank) :
    ∀ sorted : List Bank, (scatterLoop offsets live sorted).length = sorted.length := by
  induction live with
  | nil => intro sorted; rfl
  | cons a rest ih =>
    intro sorted
    rw [scatterLoop, ih, List.length_set]

/-- A scratch position claimed by no remaining site is left alone by the
scatter loop. -/
theorem scatterLoop_getElem?_of_not_dest (offsets : List Nat) (live : List Bank)
    (m : Nat) : ∀ sorted : List Bank, (∀ site ∈ live, destIdx offsets site ≠ m) →
    (scatterLoop offsets live sorted)[m]? = sorted[m]? := by
  induction live with
  | nil => intro sorted _; rfl
  | cons a rest ih =>
    intro sorted h
    rw [scatterLoop, ih _ (fun site hs => h site (List.mem_cons_of_mem a hs))]
    exact List.getElem?_set_ne (h a (List.mem_cons_self a rest))

/-- Scatter correctness: when all destinations are in range and pairwise
distinct, every site ends up (exactly) at its own destination. -/
theorem scatterLoop_getElem?_dest (offsets : List Nat) (live : List Bank) :
    ∀ sorted : List Bank,
    live.Pairwise (fun a b => destIdx offsets a ≠ destIdx offsets b) →
    (∀ site ∈ live, destIdx offsets site < sorted.length) →
    ∀ site ∈ live,
      (scatterLoop offsets live sorted)[destIdx offsets site]? = some site := by
  induction live with
  | nil => intro sorted _ _ site hs; cases hs
  | cons a rest ih =>
    intro sorted hpair hlt site hs
    rcases List.mem_cons.mp hs with rfl | hmem
    · rw [scatterLoop, scatterLoop_getElem?_of_not_dest offsets rest _ _
        (fun b hb h => ((List.pairwise_cons.mp hpair).1 b hb) h.symm)]
      exact List.getElem?_set_eq_of_lt site
        (hlt site (List.mem_cons_self site rest))
    · rw [scatterLoop]
      refine ih _ (List.pairwise_cons.mp hpair).2 ?_ site hmem
      intro b hb
      rw [List.length_set]
      exact hlt b (List.mem_cons_of_mem a hb)

/-- Under the lineage invariant each live site lands at its canonical
destination in the scratch buffer. -/
theorem sorted_getElem?_dest (counts : List Nat) (live : List Bank)
    (hinv : LineageInv counts live) (site : Bank) (hmem : site ∈ live) :
    (scatterLoop (exclusive_scan counts) live
        (List.replicate live.length defaultBank))[destIdx (exclusive_scan counts) site]?
      = some site := by
  refine scatterLoop_getElem?_dest (exclusive_scan counts) live _
    (lineage_pairwise_dest counts live hinv) ?_ site hmem
  intro b hb
  rw [List.length_replicate, hinv.2.2.2]
  exact destIdx_lt_sum counts b (hinv.1 b hb)

/-- Under the lineage invariant every position of the scatter output is
occupied by a live site whose destination is that position. -/
theorem sorted_getElem?_surj (counts : List Nat) (live : List Bank)
    (hinv : LineageInv counts live) (m : Nat) (hm : m < live.length) :
    ∃ site ∈ live,
      (scatterLoop (exclusive_scan counts) live
          (List.replicate live.length defaultBank))[m]? = some site
      ∧ destIdx (exclusive_scan counts) site = m := by
  obtain ⟨p, j, hp, hj, he⟩ := sum_decompose counts m (hinv.2.2.2 ▸ hm)
  obtain ⟨site, hmem, hpid, hjid⟩ := hinv.2.2.1 p hp j hj
  have hd : destIdx (exclusive_scan counts) site = m := by
    rw [destIdx_exclusive_scan counts site (hinv.1 site hmem), hpid, hjid]
    simpa using he
  exact ⟨site, hmem, hd ▸ sorted_getElem?_dest counts live hinv site hmem, hd⟩

/-- Under the lineage invariant the live sites are pairwise distinct. -/
theorem lineage_nodup (counts : List Nat) (live : List Bank)
    (hinv : LineageInv counts live) : live.Nodup := by
  refine hinv.2.1.imp ?_
  intro a b h
  intro hab
  rw [hab] at h
  rcases h with h | h
  · exact h rfl
  · exact h rfl

/-- The scatter output of an invariant-satisfying bank is a permutation of
the bank. -/
theorem sorted_perm (counts : List Nat) (live : List Bank)
    (hinv : LineageInv counts live) :
    (scatterLoop (exclusive_scan counts) live
        (List.replicate live.length defaultBank)).Perm live := by
  have hlen : (scatterLoop (exclusive_scan counts) live
      (List.replicate live.length defaultBank)).length = live.length := by
    rw [scatterLoop_length, List.length_replicate]
  have hnodup : (scatterLoop (exclusive_scan counts) live
      (List.replicate live.length defaultBank)).Nodup := by
    rw [List.nodup_iff_getElem?_ne_getElem?]
    intro i j hij hj heq
    obtain ⟨a, _, hga, hda⟩ := sorted_getElem?_surj counts live hinv i
      (by omega)
    obtain ⟨b, _, hgb, hdb⟩ := sorted_getElem?_surj counts live hinv j
      (by omega)
    rw [hga, hgb] at heq
    have hab : a = b := by injection heq
    rw [hab] at hda
    omega
  refine (List.perm_ext_iff_of_nodup hnodup (lineage_nodup counts live hinv)).mpr ?_
  intro a
  constructor
  · intro ha
    obtain ⟨i, hi⟩ := List.mem_iff_getElem?.mp ha
    have hilt : i < live.length := by
      rcases List.getElem?_eq_some.mp hi with ⟨hlt, _⟩
      omega
    obtain ⟨b, hbmem, hgb, _⟩ := sorted_getElem?_surj counts live hinv i hilt
    rw [hi] at hgb
    have hab : a = b := by injection hgb
    rwa [hab]
  · intro ha
    exact List.getElem?_mem (sorted_getElem?_dest counts live hinv a ha)

/-- Two sites of an invariant-satisfying bank with the same lineage pair
are the same site. -/
theorem lineage_pair_unique (counts : List Nat) (live : List Bank)
    (hinv : LineageInv counts live) {a b : Bank} (ha : a ∈ live) (hb : b ∈ live)
    (h1 : a.parent_id = b.parent_id) (h2 : a.progeny_id = b.progeny_id) :
    a = b := by
  by_contra hne
  have hsymm : Symmetric (fun a b : Bank =>
      a.parent_id ≠ b.parent_id ∨ a.progeny_id ≠ b.progeny_id) := by
    intro x y h
    rcases h with h | h
    · exact Or.inl h.symm
    · exact Or.inr h.symm
  rcases @List.Pairwise.forall Bank _ live hsymm hinv.2.1 a ha b hb hne with h | h
  · exact h h1
  · exact h h2

/-- The lineage invariant is stable under permuting the bank. -/
theorem lineage_inv_perm (counts : List Nat) {l1 l2 : List Bank}
    (hperm : l1.Perm l2) (hinv : LineageInv counts l1) :
    LineageInv counts l2 := by
  have hsymm : Symmetric (fun a b : Bank =>
      a.parent_id ≠ b.parent_id ∨ a.progeny_id ≠ b.progeny_id) := by
    intro x y h
    rcases h with h | h
    · exact Or.inl h.symm
    · exact Or.inr h.symm
  refine ⟨?_, ?_, ?_, ?_⟩
  · intro site hs
    exact hinv.1 site (hperm.mem_iff.mpr hs)
  · exact (List.Perm.pairwise_iff (fun h => hsymm h) hperm).mp hinv.2.1
  · intro p hp j hj
    obtain ⟨site, hmem, h⟩ := hinv.2.2.1 p hp j hj
    exact ⟨site, hperm.mem_iff.mp hmem, h⟩
  · rw [← hperm.length_eq]
    exact hinv.2.2.2

/-- Append order does not matter: two invariant-satisfying banks that are
permutations of each other scatter to the same output. -/
theorem sorted_unique (counts : List Nat) (l1 l2 : List Bank)
    (hinv : LineageInv counts l1) (hperm : l1.Perm l2) :
    scatterLoop (exclusive_scan counts) l1 (List.replicate l1.length defaultBank)
      = scatterLoop (exclusive_scan counts) l2 (List.replicate l2.length defaultBank) := by
  have hinv2 := lineage_inv_perm counts hperm hinv
  have hlen12 := hperm.length_eq
  apply List.ext_getElem?
  intro m
  by_cases hm : m < l1.length
  · obtain ⟨a, hamem, hga, hda⟩ := sorted_getElem?_surj counts l1 hinv m hm
    obtain ⟨b, hbmem, hgb, hdb⟩ := sorted_getElem?_surj counts l2 hinv2 m
      (by omega)
    have hbmem1 : b ∈ l1 := hperm.mem_iff.mpr hbmem
    have hpair := destIdx_inj counts (hinv.1 a hamem) (hinv.1 b hbmem1)
      (by rw [hda, hdb])
    have hab : a = b :=
      lineage_pair_unique counts l1 hinv hamem hbmem1 hpair.1 hpair.2
    rw [hga, hgb, hab]
  · rw [List.getElem?_eq_none, List.getElem?_eq_none]
    · rw [scatterLoop_length, List.length_replicate]
      omega
    · rw [scatterLoop_length, List.length_replicate]
      omega

/-- In a well-formed state the live region has exactly
`fission_bank_length` entries. -/
theorem liveRegion_length (s : BankState) (h : WF s) :
    (liveRegion s).length = s.fission_bank_length := by
  obtain ⟨_, h2, h3⟩ := h
  rw [liveRegion, List.length_take]
  omega

/-- Unfolding `sort_fission_bank` on a nonempty counter vector, with the
scan already rewritten to the reference exclusive scan and the scratch
size rewritten to the live region's length. -/
theorem sort_fission_bank_eq (s : BankState) (hwf : WF s)
    (hne : s.progeny_per_particle ≠ []) :
    sort_fission_bank s = { s with
      progeny_per_particle := exclusive_scan s.progeny_per_particle,
      fission_bank := some
        (scatterLoop (exclusive_scan s.progeny_per_particle) (liveRegion s)
            (List.replicate (liveRegion s).length defaultBank)
          ++ (s.fission_bank.getD []).drop s.fission_bank_length) } := by
  rw [sort_fission_bank, if_neg (by simpa using hne), scan_fission_eq,
    liveRegion_length s hwf]
  rfl

/-- The live region after a sort is exactly the scatter output. -/
theorem liveRegion_sort (s : BankState) (hwf : WF s)
    (hne : s.progeny_per_particle ≠ []) :
    liveRegion (sort_fission_bank s)
      = scatterLoop (exclusive_scan s.progeny_per_particle) (liveRegion s)
          (List.replicate (liveRegion s).length defaultBank) := by
  rw [sort_fission_bank_eq s hwf hne]
  show (scatterLoop _ _ _ ++ _).take s.fission_bank_length = _
  have hlen : (scatterLoop (exclusive_scan s.progeny_per_particle) (liveRegion s)
      (List.replicate (liveRegion s).length defaultBank)).length
        = s.fission_bank_length := by
    rw [scatterLoop_length, List.length_replicate, liveRegion_length s hwf]
  rw [← hlen, List.take_left]

/-- Concrete sites for the spec's 3-particle scenario: progeny counts
`[2, 0, 1]`; parent 1 emits progeny 0 and 1, parent 3 emits progeny 0. -/
def siteA : Bank := ⟨1, 0, 10⟩

/-- Parent 1's progeny 1 in the concrete scenario. -/
def siteB : Bank := ⟨1, 1, 11⟩

/-- Parent 3's progeny 0 in the concrete scenario. -/
def siteC : Bank := ⟨3, 0, 30⟩

/-- A scrambled append order of the three concrete sites. -/
def exLive : List Bank := [siteC, siteB, siteA]

/-- A well-formed state holding the scrambled scenario: capacity 4,
length 3, progeny counts `[2, 0, 1]`, one unused slot past the live
region. -/
def exState : BankState :=
  { source_bank := []
    fission_bank := some (exLive ++ [defaultBank])
    fission_bank_length := 3
    fission_bank_max := 4
    progeny_per_particle := [2, 0, 1]
    errmsg := "" }

/-- The same scenario appended in a different interleaving, with different
garbage past the live region. -/
def exState2 : BankState :=
  { exState with fission_bank := some ([siteA, siteC, siteB] ++ [siteB]) }

/-- A state whose banks are empty/unallocated. -/
def emptyState : BankState :=
  { source_bank := []
    fission_bank := none
    fission_bank_length := 0
    fission_bank_max := 0
    progeny_per_particle := []
    errmsg := "ok" }

/-- A state with populated banks, for the accessors' success paths. -/
def fullState : BankState :=
  { source_bank := [siteA]
    fission_bank := some (exLive ++ [defaultBank])
    fission_bank_length := 3
    fission_bank_max := 4
    progeny_per_particle := [2, 0, 1]
    errmsg := "ok" }

/-- A state left behind by a previous generation: `progeny_per_particle`
still holds a stale nonzero entry, capacity 7. -/
def staleState : BankState :=
  { source_bank := []
    fission_bank := some []
    fission_bank_length := 0
    fission_bank_max := 7
    progeny_per_particle := [5]
    errmsg := "" }

/-- Claim C8: with `progeny_per_particle` empty, `sort_fission_bank`
returns immediately and the whole state — fission bank contents, its
length, and `progeny_per_particle` — is exactly as before the call. -/
theorem C8_sort_empty_noop (s : BankState)
    (h : s.progeny_per_particle = []) : sort_fission_bank s = s := by
  rw [sort_fission_bank, if_pos (by rw [h]; rfl)]

/-- Witness for C8 at a concrete state with no source particles. -/
theorem C8_sort_empty_noop_witness :
    emptyState.progeny_per_particle = []
    ∧ sort_fission_bank emptyState = emptyState :=
  ⟨rfl, C8_sort_empty_noop emptyState rfl⟩

/-- Counterexample to claim C9 as stated: `free_memory_bank` does not
perform a full reset — the `progeny_per_particle` counters and the
declared capacity survive the call unchanged (here the stale counter 5
and capacity 7), so "the counters are reset" fails. -/
theorem C9_counterexample :
    (free_memory_bank staleState).progeny_per_particle = [5]
    ∧ (free_memory_bank staleState).fission_bank_max = 7
    ∧ (5 : Nat) ≠ 0 :=
  ⟨rfl, rfl, by decide⟩

/-- Claim C9 (amended): `free_memory_bank` clears the source bank,
releases the fission bank, and resets the length counter to 0, leaving
`progeny_per_particle`, the declared capacity and the error channel
unchanged; it is idempotent — a second call yields exactly the state of
one call. -/
theorem C9_free_memory_bank_spec (s : BankState) :
    (free_memory_bank s).source_bank = []
    ∧ (free_memory_bank s).fission_bank = none
    ∧ (free_memory_bank s).fission_bank_length = 0
    ∧ (free_memory_bank s).progeny_per_particle = s.progeny_per_particle
    ∧ (free_memory_bank s).fission_bank_max = s.fission_bank_max
    ∧ (free_memory_bank s).errmsg = s.errmsg
    ∧ free_memory_bank (free_memory_bank s) = free_memory_bank s :=
  ⟨rfl, rfl, rfl, rfl, rfl, rfl, rfl⟩

/-- Counterexample to claim C7 as stated: `std::vector::resize` keeps the
existing entries, so after `init_fission_bank` from a state whose counter
vector already has (stale, nonzero) entries at indices below the new size,
those entries are not zero. -/
theorem C7_counterexample :
    (init_fission_bank 4 1 staleState).progeny_per_particle = [5]
    ∧ (5 : Nat) ≠ 0 :=
  ⟨rfl, by decide⟩

/-- Claim C7 (amended): after `init_fission_bank` with `n` locally-owned
source particles, `progeny_per_particle` has length `n`; entries at
indices at or beyond the previous size are zero, while entries below both
`n` and the previous size keep their previous values. -/
theorem C7_init_progeny_counter (max n : Nat) (s : BankState) :
    (init_fission_bank max n s).progeny_per_particle.length = n
    ∧ (∀ i, s.progeny_per_particle.length ≤ i → i < n →
        (init_fission_bank max n s).progeny_per_particle.getD i 0 = 0)
    ∧ (∀ i, i < n → i < s.progeny_per_particle.length →
        (init_fission_bank max n s).progeny_per_particle.getD i 0
          = s.progeny_per_particle.getD i 0) := by
  refine ⟨?_, ?_, ?_⟩
  · show (vectorResize s.progeny_per_particle n).length = n
    rw [vectorResize, List.length_append, List.length_take,
      List.length_replicate]
    omega
  · intro i h1 h2
    show (vectorResize s.progeny_per_particle n).getD i 0 = 0
    rw [vectorResize, List.getD_eq_getElem?_getD,
      List.getElem?_append_right (by rw [List.length_take]; omega),
      List.getElem?_replicate, if_pos (by rw [List.length_take]; omega)]
    rfl
  · intro i h1 h2
    show (vectorResize s.progeny_per_particle n).getD i 0
      = s.progeny_per_particle.getD i 0
    rw [vectorResize, List.getD_eq_getElem?_getD,
      List.getElem?_append_left (by rw [List.length_take]; omega),
      List.getElem?_take, if_pos h1, List.getD_eq_getElem?_getD]

/-- Witness for (amended) C7: from the stale state, resizing to 3 yields
length 3, a zero at the fresh index 2, and the stale value 5 kept at
index 0. -/
theorem C7_init_progeny_counter_witness :
    (init_fission_bank 4 3 staleState).progeny_per_particle.length = 3
    ∧ (init_fission_bank 4 3 staleState).progeny_per_particle.getD 2 0 = 0
    ∧ (init_fission_bank 4 3 staleState).progeny_per_particle.getD 0 0
        = staleState.progeny_per_particle.getD 0 0 :=
  ⟨(C7_init_progeny_counter 4 3 staleState).1,
    (C7_init_progeny_counter 4 3 staleState).2.1 2 (by decide) (by decide),
    (C7_init_progeny_counter 4 3 staleState).2.2 0 (by decide) (by decide)⟩

/-- Claim C4: on a nonempty counter vector, the in-place tmp-carrying scan
loop of `sort_fission_bank` computes exactly the exclusive prefix sum:
entry `i` becomes the sum of the original counts at indices `< i`, i.e.
the result coincides with a reference `exclusive_scan`, and this is the
counter vector `sort_fission_bank` leaves behind. -/
theorem C4_scan_is_exclusive_scan (s : BankState)
    (h : s.progeny_per_particle ≠ []) :
    scan_fission s.progeny_per_particle = exclusive_scan s.progeny_per_particle
    ∧ (∀ i, i < s.progeny_per_particle.length →
        (scan_fission s.progeny_per_particle).getD i 0
          = (s.progeny_per_particle.take i).sum)
    ∧ (sort_fission_bank s).progeny_per_particle
        = exclusive_scan s.progeny_per_particle := by
  refine ⟨scan_fission_eq _, ?_, ?_⟩
  · intro i hi
    rw [scan_fission_eq, exclusive_scan_getD _ _ hi]
  · rw [sort_fission_bank, if_neg (by simpa using h)]
    exact scan_fission_eq _

/-- Witness for C4 at the concrete scenario: counts `[2, 0, 1]` scan to
offsets `[0, 2, 2]`. -/
theorem C4_scan_is_exclusive_scan_witness :
    exState.progeny_per_particle ≠ []
    ∧ scan_fission exState.progeny_per_particle
        = exclusive_scan exState.progeny_per_particle
    ∧ scan_fission exState.progeny_per_particle = [0, 2, 2] :=
  ⟨by decide, (C4_scan_is_exclusive_scan exState (by decide)).1, by decide⟩

/-- A freshly allocated capacity-2 fission bank. -/
def capState0 : BankState :=
  { source_bank := []
    fission_bank := some (List.replicate 2 defaultBank)
    fission_bank_length := 0
    fission_bank_max := 2
    progeny_per_particle := []
    errmsg := "" }

/-- The capacity-2 bank after one successful append. -/
def capState1 : BankState :=
  { capState0 with fission_bank := some [siteA, defaultBank]
                   fission_bank_length := 1 }

/-- The capacity-2 bank after two successful appends: full. -/
def capState2 : BankState :=
  { capState0 with fission_bank := some [siteA, siteB]
                   fission_bank_length := 2 }

/-- Claim C5: on a full fission bank (current length equal to the declared
capacity) a further `append` detects the capacity overflow and reports it
as an error instead of writing the site — no new state is produced. -/
theorem C5_append_capacity_error (s : BankState) (site : Bank)
    (h : s.fission_bank_length = s.fission_bank_max) :
    fission_bank_append s site
      = Except.error "Maximum fission bank size exceeded." := by
  rw [fission_bank_append, if_neg (by omega)]

/-- Witness for C5, the spec's concrete scenario: capacity 2, two appends
succeed returning indices 0 and 1, and the third append attempt is
reported as a capacity error. -/
theorem C5_append_capacity_error_witness :
    fission_bank_append capState0 siteA = Except.ok (capState1, 0)
    ∧ fission_bank_append capState1 siteB = Except.ok (capState2, 1)
    ∧ capState2.fission_bank_length = capState2.fission_bank_max
    ∧ fission_bank_append capState2 siteC
        = Except.error "Maximum fission bank size exceeded." :=
  ⟨rfl, rfl, rfl, C5_append_capacity_error capState2 siteC rfl⟩

/-- Claim C6: each inspection accessor fails on an empty/unallocated bank
with the distinguished (nonzero) not-yet-allocated code, sets the error
message, and leaves the caller's pointer and length outputs unchanged;
otherwise it returns 0 and sets the outputs to the live data and the
current size/length. -/
theorem C6_accessors (s : BankState) (ptr0 : Option (List Bank)) (n0 : Int) :
    OPENMC_E_ALLOCATE ≠ 0
    ∧ (s.source_bank.length = 0 →
        openmc_source_bank s ptr0 n0
          = (OPENMC_E_ALLOCATE, ptr0, n0, "Source bank has not been allocated."))
    ∧ (s.source_bank.length ≠ 0 →
        openmc_source_bank s ptr0 n0
          = (0, some s.source_bank, (s.source_bank.length : Int), s.errmsg))
    ∧ (s.fission_bank_length = 0 →
        openmc_fission_bank s ptr0 n0
          = (OPENMC_E_ALLOCATE, ptr0, n0, "Fission bank has not been allocated."))
    ∧ (s.fission_bank_length ≠ 0 →
        openmc_fission_bank s ptr0 n0
          = (0, s.fission_bank, (s.fission_bank_length : Int), s.errmsg)) := by
  refine ⟨by decide, fun h => ?_, fun h => ?_, fun h => ?_, fun h => ?_⟩
  · rw [openmc_source_bank, if_pos h]
  · rw [openmc_source_bank, if_neg h]
  · rw [openmc_fission_bank, if_pos h]
  · rw [openmc_fission_bank, if_neg h]

/-- Witness for C6: both accessors fail on the empty state leaving the
caller's outputs (here `none` and 7) untouched, and succeed on a
populated state handing out the live data and sizes. -/
theorem C6_accessors_witness :
    openmc_source_bank emptyState none 7
        = (OPENMC_E_ALLOCATE, none, 7, "Source bank has not been allocated.")
    ∧ openmc_fission_bank emptyState none 7
        = (OPENMC_E_ALLOCATE, none, 7, "Fission bank has not been allocated.")
    ∧ openmc_source_bank fullState none 7
        = (0, some fullState.source_bank, 1, "ok")
    ∧ openmc_fission_bank fullState none 7
        = (0, fullState.fission_bank, 3, "ok") :=
  ⟨(C6_accessors emptyState none 7).2.1 rfl,
    (C6_accessors emptyState none 7).2.2.2.1 rfl,
    (C6_accessors fullState none 7).2.2.1 (by decide),
    (C6_accessors fullState none 7).2.2.2.2 (by decide)⟩

/-- Claim C1: under the lineage invariant with matching per-parent counts,
after `sort_fission_bank` the j-th progeny (0-based) of source particle i
(1-based) sits at index `Σ_{t<i} c_t + j` of the fission bank. -/
theorem C1_sort_canonical_position (s : BankState) (hwf : WF s)
    (hinv : LineageInv s.progeny_per_particle (liveRegion s))
    (i j : Nat) (site : Bank) (hmem : site ∈ liveRegion s)
    (hpid : site.parent_id = i) (hjid : site.progeny_id = j) :
    ((sort_fission_bank s).fission_bank.getD
        [])[(s.progeny_per_particle.take (i - 1)).sum + j]? = some site := by
  have hvalid := hinv.1 site hmem
  have hne : s.progeny_per_particle ≠ [] := by
    intro hc
    have h0 := hinv.2.2.2
    rw [hc] at h0
    exact (List.ne_nil_of_mem hmem) (List.eq_nil_of_length_eq_zero h0)
  have hidx : (s.progeny_per_particle.take (i - 1)).sum + j
      = destIdx (exclusive_scan s.progeny_per_particle) site := by
    rw [destIdx_exclusive_scan _ _ hvalid, hpid, hjid]
  rw [sort_fission_bank_eq s hwf hne, hidx]
  show (scatterLoop (exclusive_scan s.progeny_per_particle) (liveRegion s)
        (List.replicate (liveRegion s).length defaultBank)
      ++ (s.fission_bank.getD []).drop
          s.fission_bank_length)[destIdx (exclusive_scan s.progeny_per_particle) site]?
    = some site
  have hlt : destIdx (exclusive_scan s.progeny_per_particle) site
      < (scatterLoop (exclusive_scan s.progeny_per_particle) (liveRegion s)
          (List.replicate (liveRegion s).length defaultBank)).length := by
    rw [scatterLoop_length, List.length_replicate, hinv.2.2.2]
    exact destIdx_lt_sum _ site hvalid
  rw [List.getElem?_append_left hlt]
  exact sorted_getElem?_dest _ _ hinv site hmem

/-- Witness for C1 at the concrete scenario: parent 1's progeny 1 lands at
index `Σ_{t<1} c_t + 1 = 1`. -/
theorem C1_sort_canonical_position_witness :
    WF exState
    ∧ LineageInv exState.progeny_per_particle (liveRegion exState)
    ∧ siteB ∈ liveRegion exState
    ∧ ((sort_fission_bank exState).fission_bank.getD
        [])[(exState.progeny_per_particle.take (1 - 1)).sum + 1]? = some siteB :=
  ⟨by decide, by decide, by decide,
    C1_sort_canonical_position exState (by decide) (by decide) 1 1 siteB
      (by decide) rfl rfl⟩

/-- Claim C2: under the lineage invariant with matching counts,
`sort_fission_bank` rearranges the live region by a bijection — its
output is a permutation of the input entries. -/
theorem C2_sort_permutation (s : BankState) (hwf : WF s)
    (hinv : LineageInv s.progeny_per_particle (liveRegion s)) :
    (liveRegion (sort_fission_bank s)).Perm (liveRegion s) := by
  by_cases hne : s.progeny_per_particle = []
  · rw [sort_fission_bank, if_pos (by rw [hne]; rfl)]
  · rw [liveRegion_sort s hwf hne]
    exact sorted_perm _ _ hinv

/-- Witness for C2 at the concrete scenario. -/
theorem C2_sort_permutation_witness :
    WF exState
    ∧ LineageInv exState.progeny_per_particle (liveRegion exState)
    ∧ (liveRegion (sort_fission_bank exState)).Perm (liveRegion exState) :=
  ⟨by decide, by decide, C2_sort_permutation exState (by decide) (by decide)⟩

/-- Two sites sharing the lineage pair (1, 0) but distinguishable by
payload: they violate the lineage invariant for counts `[2]`. -/
def dupA : Bank := ⟨1, 0, 1⟩

/-- The second site of the invariant-violating pair. -/
def dupB : Bank := ⟨1, 0, 2⟩

/-- A bank holding the two clashing sites in one order. -/
def clashState1 : BankState :=
  { source_bank := []
    fission_bank := some [dupA, dupB]
    fission_bank_length := 2
    fission_bank_max := 2
    progeny_per_particle := [2]
    errmsg := "" }

/-- The same two clashing sites appended in the other order. -/
def clashState2 : BankState :=
  { clashState1 with fission_bank := some [dupB, dupA] }

/-- Counterexample to claim C3 as stated: without the lineage invariant,
two banks that are permutations of the same multiset of sites with the
same counter vector can sort to different outputs — when two sites share a
lineage pair their scatter destinations collide and the last write wins,
so the append order shows through. -/
theorem C3_counterexample :
    (liveRegion clashState1).Perm (liveRegion clashState2)
    ∧ clashState1.progeny_per_particle = clashState2.progeny_per_particle
    ∧ liveRegion (sort_fission_bank clashState1)
        ≠ liveRegion (sort_fission_bank clashState2) := by
  refine ⟨List.Perm.swap dupB dupA [], rfl, by decide⟩

/-- Claim C3 (amended): for banks satisfying the lineage invariant, any
two append orderings of the same multiset of sites, with the same counter
vector, sort to identical output sequences. -/
theorem C3_sort_order_independence (s1 s2 : BankState)
    (h1 : WF s1) (h2 : WF s2)
    (hc : s1.progeny_per_particle = s2.progeny_per_particle)
    (hinv : LineageInv s1.progeny_per_particle (liveRegion s1))
    (hperm : (liveRegion s1).Perm (liveRegion s2)) :
    liveRegion (sort_fission_bank s1) = liveRegion (sort_fission_bank s2) := by
  by_cases hne : s1.progeny_per_particle = []
  · have hn2 : s2.progeny_per_particle = [] := by rw [← hc]; exact hne
    rw [sort_fission_bank, if_pos (by rw [hne]; rfl),
      sort_fission_bank, if_pos (by rw [hn2]; rfl)]
    have hl1 : (liveRegion s1).length = 0 := by rw [hinv.2.2.2, hne]; rfl
    have hl2 : (liveRegion s2).length = 0 := by rw [← hperm.length_eq, hl1]
    rw [List.eq_nil_of_length_eq_zero hl1, List.eq_nil_of_length_eq_zero hl2]
  · have hn2 : s2.progeny_per_particle ≠ [] := by rw [← hc]; exact hne
    rw [liveRegion_sort s1 h1 hne, liveRegion_sort s2 h2 hn2, ← hc]
    exact sorted_unique _ _ _ hinv hperm

/-- Witness for (amended) C3: the two interleavings of the concrete
scenario sort to the same live region. -/
theorem C3_sort_order_independence_witness :
    WF exState ∧ WF exState2
    ∧ exState.progeny_per_particle = exState2.progeny_per_particle
    ∧ LineageInv exState.progeny_per_particle (liveRegion exState)
    ∧ (liveRegion exState).Perm (liveRegion exState2)
    ∧ liveRegion (sort_fission_bank exState)
        = liveRegion (sort_fission_bank exState2) :=
  ⟨by decide, by decide, rfl, by decide, by decide,
    C3_sort_order_independence exState exState2 (by decide) (by decide) rfl
      (by decide) (by decide)⟩

/-- Claim C10: `sort_fission_bank` leaves the length counter, the declared
capacity, the source bank (and the error channel) unchanged, and does not
modify any fission-bank slot at an index at or beyond
`fission_bank_length`. -/
theorem C10_sort_frame (s : BankState) (hwf : WF s)
    (hinv : LineageInv s.progeny_per_particle (liveRegion s)) :
    (sort_fission_bank s).fission_bank_length = s.fission_bank_length
    ∧ (sort_fission_bank s).fission_bank_max = s.fission_bank_max
    ∧ (sort_fission_bank s).source_bank = s.source_bank
    ∧ (sort_fission_bank s).errmsg = s.errmsg
    ∧ ∀ m, s.fission_bank_length ≤ m →
        ((sort_fission_bank s).fission_bank.getD [])[m]?
          = (s.fission_bank.getD [])[m]? := by
  by_cases hne : s.progeny_per_particle = []
  · rw [sort_fission_bank, if_pos (by rw [hne]; rfl)]
    exact ⟨rfl, rfl, rfl, rfl, fun m _ => rfl⟩
  · rw [sort_fission_bank_eq s hwf hne]
    refine ⟨rfl, rfl, rfl, rfl, ?_⟩
    intro m hm
    show (scatterLoop (exclusive_scan s.progeny_per_particle) (liveRegion s)
          (List.replicate (liveRegion s).length defaultBank)
        ++ (s.fission_bank.getD []).drop s.fission_bank_length)[m]?
      = (s.fission_bank.getD [])[m]?
    have hlen : (scatterLoop (exclusive_scan s.progeny_per_particle)
        (liveRegion s)
        (List.replicate (liveRegion s).length defaultBank)).length
          = s.fission_bank_length := by
      rw [scatterLoop_length, List.length_replicate, liveRegion_length s hwf]
    have hge : (scatterLoop (exclusive_scan s.progeny_per_particle)
        (liveRegion s)
        (List.replicate (liveRegion s).length defaultBank)).length ≤ m := by
      rw [hlen]; exact hm
    rw [List.getElem?_append_right hge, hlen, List.getElem?_drop]
    congr 1
    omega

/-- Witness for C10 at the concrete scenario: the slot just past the live
region (index 3) still holds its old content after sorting. -/
theorem C10_sort_frame_witness :
    (sort_fission_bank exState).fission_bank_length = exState.fission_bank_length
    ∧ (sort_fission_bank exState).fission_bank_max = exState.fission_bank_max
    ∧ (sort_fission_bank exState).source_bank = exState.source_bank
    ∧ ((sort_fission_bank exState).fission_bank.getD [])[3]?
        = (exState.fission_bank.getD [])[3]? :=
  ⟨(C10_sort_frame exState (by decide) (by decide)).1,
    (C10_sort_frame exState (by decide) (by decide)).2.1,
    (C10_sort_frame exState (by decide) (by decide)).2.2.1,
    (C10_sort_frame exState (by decide) (by decide)).2.2.2.2 3 (by decide)⟩

end OpenMC
